import Mathlib

/-!
Verification of the NotionAPI tree-transformation core
(`packages/transform/src/util/groupBlocks.ts`): the recursive block-map
transformer `transformBlockMap` and the sibling grouper `groupBlocks`.

The block graph is modelled as an association list from identifiers to block
records (JS object insertion order is the list order).  The `properties` and
`format` bags are modelled, following the spec's data model, as records of
optional fields (every access in the source goes through optional chaining, or
assumes the bag present).  Recursion in the source is general recursion over a
possibly-cyclic graph, so the embedding threads an explicit fuel counter: a
`Res.out` result models a computation that did not finish within the given
fuel, and `Res.val` models the returned `T | undefined` value.

Collaborator utilities that live in this repository but outside the provided
sources (`getTextContent`, `getTopLevelPageBlock`, `findListIndex`,
`mapImageURL`) are modelled from the spec; each is marked as such in its doc
comment.
-/

deriving instance DecidableEq for Except

namespace Notion

/-- One span of the flattened rich-text result: the spec describes
`getTextContent` as producing a sequence of objects carrying a `text` field. -/
structure TextSpan where
  text : String
deriving DecidableEq, Repr

/-- Rich text as in the data model: an ordered sequence of
`[text, decorations?]` pairs. -/
abbrev RichText := List (String × List String)

/-- The `properties` bag of a block: rich-text-like fields keyed by role. -/
structure Properties where
  title : Option RichText
  caption : Option RichText
  link : Option RichText
  checked : Option RichText
  language : Option RichText
  source : Option RichText
deriving DecidableEq, Repr

/-- The `format` bag of presentation hints. -/
structure Format where
  page_icon : Option String
  block_color : Option String
  column_ratio : Option Rat
  block_aspect_ratio : Option Rat
  block_height : Option Rat
  block_width : Option Rat
  block_full_width : Option Bool
  block_page_width : Option Bool
  block_preserve_scale : Option Bool
  display_source : Option String
  bookmark_icon : Option String
  bookmark_cover : Option String
deriving DecidableEq, Repr

/-- A block record: the `value` object of one entry of the block map. -/
structure Block where
  type : String
  properties : Properties
  format : Format
  content : Option (List String)
  parent_id : Option String
  collection_id : Option String
  view_ids : List String
deriving DecidableEq, Repr

/-- The block map: identifier-to-record entries in insertion order. -/
abbrev Graph := List (String × Block)

/-- `blockMap[id]?.value`: first entry with the given key, if any. -/
def lookup (g : Graph) (i : String) : Option Block :=
  (g.find? (fun p => p.1 == i)).map (fun p => p.2)

/-- `Object.keys(blockMap)` in insertion order. -/
def gkeys (g : Graph) : List String := g.map (fun p => p.1)

/-- `blockMap[c]?.value?.type`. -/
def lookupType (g : Graph) (c : String) : Option String :=
  (lookup g c).map (fun v => v.type)

/-- Modelled from the spec: the text-flattening collaborator
`getTextContent(richTextField)` (not in the provided sources) returns the
ordered sequence of `{text, ...decorations}` spans of a rich-text field, and
passes an absent field through. -/
def getTextContent (rt : Option RichText) : Option (List TextSpan) :=
  rt.map (fun l => l.map (fun p => ⟨p.1⟩))

/-- `field?.[0]?.[0]`: the text of the first span of a rich-text field. -/
def firstText (rt : Option RichText) : Option String :=
  (rt.bind List.head?).map (fun p => p.1)

/-- `(getTextContent(...) || []).reduce((a, b) => a + b.text, "")`. -/
def concatSpans (o : Option (List TextSpan)) : String :=
  (o.getD []).foldl (fun a b => a ++ b.text) ""

/-- Modelled from the spec: the URL-mapping collaborator `mapImageURL(raw,
block)` (not in the provided sources) is a single pass-through mapping. -/
def mapImageURL (s : Option String) (_b : Block) : Option String := s

/-- Modelled from the spec: the list-index collaborator `findListIndex(id,
graph)` (not in the provided sources) returns a start number; its exact
numbering contract is owned by the collaborator, so it is modelled as the
constant 1-based start. -/
def findListIndex (_i : String) (_g : Graph) : Nat := 1

/-- Walk up the `parent_id` chain remembering the last `page`-typed record
seen; fuel bounds the walk. -/
def topPageAux (g : Graph) : Nat → Block → Option Block → Block
  | 0, b, best => best.getD b
  | n + 1, b, best =>
    let best2 := if b.type = "page" then some b else best
    match b.parent_id.bind (lookup g) with
    | some p => topPageAux g n p best2
    | none => best2.getD b

/-- Modelled from the spec: the collaborator `getTopLevelPageBlock(block,
blockMap)` (not in the provided sources) follows the contained-by relation
upward and returns the first `page` block with no further page ancestor,
i.e. the topmost page ancestor of the block. -/
def getTopLevelPageBlock (g : Graph) (b : Block) : Block :=
  topPageAux g (g.length + 1) b none

/-- One entry of the `table_of_contents` content list. -/
structure TocEntry where
  id : String
  level : Nat
  text : Option (List TextSpan)
deriving DecidableEq, Repr

/-- The `bookmark` content object. -/
structure BookmarkContent where
  link : String
  title : String
  desc : String
  favicon : Option String
  thumbnail : Option String
  color : Option String
deriving DecidableEq, Repr

/-- The `content` value computed by the switch of `transformBlockMap`:
one constructor per distinct content shape, `unset` for branches that leave
`content` unset. -/
inductive Content where
  | unset : Content
  | textC : Option (List TextSpan) → Content
  | pageLinkC : Option String → Option String → Content
  | listC : Option (List TextSpan) → Nat → Option String → Content
  | headerC : Option (List TextSpan) → Nat → Content
  | todoC : Option (List TextSpan) → Bool → Content
  | tocC : List TocEntry → Content
  | columnC : Rat → Content
  | quoteC : Option (List TextSpan) → Option String → Content
  | equationC : Option String → Content
  | codeC : Option (List TextSpan) → Option String → Content
  | mediaC : Option Rat → Option Rat → Option Rat → Option Bool → Option Bool →
      Option Bool → Option String → Option (List TextSpan) → Content
  | calloutC : Option (List TextSpan) → Option String → Option String → Content
  | bookmarkC : BookmarkContent → Content
  | collectionC : Option String → List String → Content
deriving DecidableEq, Repr

/-- `block.value.format?.column_ratio || 0.5` (JS `||`: a zero ratio is falsy
and also falls back to the default). -/
def ratioOrDefault : Option Rat → Rat
  | some r => if r = 0 then 1 / 2 else r
  | none => 1 / 2

/-- The toc scan body (source lines 105-117): a present header-family child
yields an `{id, level, text}` entry, anything else yields `null`. -/
def tocEntryOf (g : Graph) (cid : String) : Option TocEntry :=
  match lookup g cid with
  | some bv =>
    if bv.type = "header" then some ⟨cid, 1, getTextContent bv.properties.title⟩
    else if bv.type = "sub_header" then some ⟨cid, 2, getTextContent bv.properties.title⟩
    else if bv.type = "sub_sub_header" then some ⟨cid, 3, getTextContent bv.properties.title⟩
    else none
  | none => none

/-- Result of a fueled run: `out` models a computation that did not complete
within the fuel (the source has no such bound and would recurse), `val`
models the returned `T | undefined`. -/
inductive Res (T : Type) where
  | out : Res T
  | val : Option T → Res T
deriving DecidableEq, Repr

/-- `TransformationRules<T>`: a partial map from output kind to a builder
`(identifier, content, children) -> T`. -/
def Rules (T : Type) := String → Option (String → Content → Option (List T) → T)

/-- Sequence a list of fueled child results: any out-of-fuel child makes the
whole traversal out of fuel. -/
def collectRes {T : Type} : List (Res T) → Except Unit (List (Option T))
  | [] => .ok []
  | .out :: _ => .error ()
  | .val x :: rest => (collectRes rest).map (fun l => x :: l)

/-- The final dispatch line of `transformBlockMap`:
`transformationRules[type]?.(blockId, content, children?.filter(Boolean))`,
with an out-of-fuel child traversal propagated. -/
def assemble {T : Type} (rules : Rules T) (blockId : String) (kind : String)
    (content : Content) (ce : Except Unit (Option (List (Option T)))) : Res T :=
  match ce with
  | .error _ => .out
  | .ok cs =>
    .val ((rules kind).map (fun r =>
      r blockId content (cs.map (fun l => l.filterMap (fun x => x)))))

/-- Fueled embedding of `transformBlockMap` (source lines 47-188), recursion
structural on the fuel.  Each `if` mirrors one `case` label of the switch;
branch bodies set the resolved kind, the content and the child traversal
exactly as the corresponding source branch does. -/
def transformGo {T : Type} (g : Graph) (rules : Rules T) :
    Nat → String → Bool → Res T
  | 0 => fun _ _ => .out
  | n + 1 => fun blockId isTopLevel =>
    match lookup g blockId with
    | none => .val none
    | some v =>
      let rc : Option (List String) → Except Unit (Option (List (Option T))) :=
        fun oc =>
          match oc with
          | none => .ok none
          | some ids =>
            (collectRes (ids.map (fun i => transformGo g rules n i false))).map some
      if v.type = "text" then
        assemble rules blockId "text" (.textC (getTextContent v.properties.title)) (.ok none)
      else if v.type = "toggle" then
        assemble rules blockId "toggle" (.textC (getTextContent v.properties.title)) (rc v.content)
      else if v.type = "page" then
        (if isTopLevel then
          assemble rules blockId "page" .unset (rc v.content)
        else
          assemble rules blockId "pageLink"
            (.pageLinkC (firstText v.properties.title) v.format.page_icon) (.ok none))
      else if v.type = "bulleted_list" then
        assemble rules blockId v.type
          (.listC (getTextContent v.properties.title) (findListIndex blockId g)
            v.format.block_color) (rc v.content)
      else if v.type = "numbered_list" then
        assemble rules blockId v.type
          (.listC (getTextContent v.properties.title) (findListIndex blockId g)
            v.format.block_color) (rc v.content)
      else if v.type = "header" then
        assemble rules blockId "header"
          (.headerC (getTextContent v.properties.title) 1) (.ok none)
      else if v.type = "sub_header" then
        assemble rules blockId "header"
          (.headerC (getTextContent v.properties.title) 2) (.ok none)
      else if v.type = "sub_sub_header" then
        assemble rules blockId "header"
          (.headerC (getTextContent v.properties.title) 3) (.ok none)
      else if v.type = "to_do" then
        assemble rules blockId "to_do"
          (.todoC (getTextContent v.properties.title)
            (firstText v.properties.checked == some "Yes")) (rc v.content)
      else if v.type = "table_of_contents" then
        assemble rules blockId "table_of_contents"
          (.tocC ((((getTopLevelPageBlock g v).content.getD []).map
            (tocEntryOf g)).reduceOption)) (.ok none)
      else if v.type = "divider" then
        assemble rules blockId "divider" .unset (.ok none)
      else if v.type = "column_list" then
        assemble rules blockId "column_list" .unset (rc v.content)
      else if v.type = "column" then
        assemble rules blockId "column"
          (.columnC (ratioOrDefault v.format.column_ratio)) (rc v.content)
      else if v.type = "quote" then
        assemble rules blockId "quote"
          (.quoteC (getTextContent v.properties.title) v.format.block_color) (.ok none)
      else if v.type = "equation" then
        assemble rules blockId "equation"
          (.equationC (firstText v.properties.title)) (.ok none)
      else if v.type = "code" then
        assemble rules blockId "code"
          (.codeC (getTextContent v.properties.title)
            (firstText v.properties.language)) (.ok none)
      else if v.type = "image" then
        assemble rules blockId v.type
          (.mediaC v.format.block_aspect_ratio v.format.block_height
            v.format.block_width v.format.block_full_width v.format.block_page_width
            v.format.block_preserve_scale
            (mapImageURL ((v.format.display_source).orElse
              (fun _ => firstText v.properties.source)) v)
            (getTextContent v.properties.caption)) (.ok none)
      else if v.type = "video" then
        assemble rules blockId v.type
          (.mediaC v.format.block_aspect_ratio v.format.block_height
            v.format.block_width v.format.block_full_width v.format.block_page_width
            v.format.block_preserve_scale
            (mapImageURL ((v.format.display_source).orElse
              (fun _ => firstText v.properties.source)) v)
            (getTextContent v.properties.caption)) (.ok none)
      else if v.type = "callout" then
        assemble rules blockId "callout"
          (.calloutC (getTextContent v.properties.title) v.format.page_icon
            v.format.block_color) (.ok none)
      else if v.type = "bookmark" then
        assemble rules blockId "bookmark"
          (.bookmarkC ⟨(firstText v.properties.link).getD "",
            concatSpans (getTextContent v.properties.title),
            concatSpans (getTextContent v.properties.title),
            v.format.bookmark_icon, v.format.bookmark_cover,
            v.format.block_color⟩) (.ok none)
      else if v.type = "collection_view" then
        assemble rules blockId "collection_view"
          (.collectionC v.collection_id v.view_ids) (.ok none)
      else
        assemble rules blockId v.type .unset (.ok none)

/-- `transformBlockMap(blockMap, blockId, transformationRules, isTopLevel)`
with an explicit fuel bound on the recursion depth. -/
def transformBlockMap {T : Type} (g : Graph) (blockId : String) (rules : Rules T)
    (isTopLevel : Bool) (fuel : Nat) : Res T :=
  transformGo g rules fuel blockId isTopLevel

/-- The resolved output kind of a block: the `type` tag with the `pageLink`
and `header` overrides. -/
def kindOf (v : Block) (top : Bool) : String :=
  if v.type = "page" then (if top then "page" else "pageLink")
  else if v.type = "header" ∨ v.type = "sub_header" ∨ v.type = "sub_sub_header" then "header"
  else v.type

/-- Header level 1/2/3 for `header`/`sub_header`/`sub_sub_header`. -/
def headerLvl (t : String) : Nat :=
  if t = "header" then 1 else if t = "sub_header" then 2 else 3

/-- The extracted content of a block, by resolved branch. -/
def contentOf (g : Graph) (blockId : String) (v : Block) (top : Bool) : Content :=
  if v.type = "text" ∨ v.type = "toggle" then .textC (getTextContent v.properties.title)
  else if v.type = "page" then
    (if top then .unset
     else .pageLinkC (firstText v.properties.title) v.format.page_icon)
  else if v.type = "bulleted_list" ∨ v.type = "numbered_list" then
    .listC (getTextContent v.properties.title) (findListIndex blockId g)
      v.format.block_color
  else if v.type = "header" ∨ v.type = "sub_header" ∨ v.type = "sub_sub_header" then
    .headerC (getTextContent v.properties.title) (headerLvl v.type)
  else if v.type = "to_do" then
    .todoC (getTextContent v.properties.title)
      (firstText v.properties.checked == some "Yes")
  else if v.type = "table_of_contents" then
    .tocC ((((getTopLevelPageBlock g v).content.getD []).map (tocEntryOf g)).reduceOption)
  else if v.type = "column" then .columnC (ratioOrDefault v.format.column_ratio)
  else if v.type = "quote" then
    .quoteC (getTextContent v.properties.title) v.format.block_color
  else if v.type = "equation" then .equationC (firstText v.properties.title)
  else if v.type = "code" then
    .codeC (getTextContent v.properties.title) (firstText v.properties.language)
  else if v.type = "image" ∨ v.type = "video" then
    .mediaC v.format.block_aspect_ratio v.format.block_height v.format.block_width
      v.format.block_full_width v.format.block_page_width v.format.block_preserve_scale
      (mapImageURL ((v.format.display_source).orElse
        (fun _ => firstText v.properties.source)) v)
      (getTextContent v.properties.caption)
  else if v.type = "callout" then
    .calloutC (getTextContent v.properties.title) v.format.page_icon v.format.block_color
  else if v.type = "bookmark" then
    .bookmarkC ⟨(firstText v.properties.link).getD "",
      concatSpans (getTextContent v.properties.title),
      concatSpans (getTextContent v.properties.title),
      v.format.bookmark_icon, v.format.bookmark_cover, v.format.block_color⟩
  else if v.type = "collection_view" then .collectionC v.collection_id v.view_ids
  else .unset

/-- The child traversal of a block at the given fuel: only the recursing
branches (`toggle`, top-level `page`, the list types, `to_do`, `column_list`,
`column`) map the recursive transform over `content`, each child with
`isTopLevel = false`. -/
def childrenOf {T : Type} (g : Graph) (rules : Rules T) (n : Nat) (v : Block)
    (top : Bool) : Except Unit (Option (List (Option T))) :=
  if v.type = "toggle" ∨ (v.type = "page" ∧ top = true) ∨ v.type = "bulleted_list" ∨
      v.type = "numbered_list" ∨ v.type = "to_do" ∨ v.type = "column_list" ∨
      v.type = "column" then
    match v.content with
    | none => .ok none
    | some ids =>
      (collectRes (ids.map (fun i => transformGo g rules n i false))).map some
  else .ok none

/-- One unfolding of the transformer, phrased compositionally: look the block
up, then dispatch the rule for the resolved kind on the extracted content and
the traversed children. -/
def stepView {T : Type} (g : Graph) (rules : Rules T) (n : Nat) (blockId : String)
    (top : Bool) : Res T :=
  match lookup g blockId with
  | none => .val none
  | some v =>
    assemble rules blockId (kindOf v top) (contentOf g blockId v top)
      (childrenOf g rules n v top)

/-- `groups[index].push(c)`: append to the last open group, a fault when no
group has been opened yet (`index` is still `-1`). -/
def pushLast : List (List String) → String → Option (List (List String))
  | [], _ => none
  | [l], x => some [l ++ [x]]
  | l :: ls, x => (pushLast ls x).map (fun r => l :: r)

/-- The unconditional `groups[index].push(blockId)` on a grouping state. -/
def groupPush (st : Option String × List (List String)) (c : String) :
    Except Unit (Option String × List (List String)) :=
  match pushLast st.2 c with
  | none => Except.error ()
  | some gs => Except.ok (st.1, gs)

/-- One child step of `groupBlocks` (source lines 18-28): open a new group
when the child's type resolves and differs from the tracker, then push the
identifier unconditionally. -/
def groupStep (g : Graph) (st : Option String × List (List String)) (c : String) :
    Except Unit (Option String × List (List String)) :=
  let bt := lookupType g c
  groupPush (if bt.isSome = true ∧ bt ≠ st.1 then (bt, st.2 ++ [[]]) else st) c

/-- `content?.forEach` over one parent's children: run `groupStep` on each
child in order, propagating the push fault. -/
def groupChildren (g : Graph) : (Option String × List (List String)) → List String →
    Except Unit (Option String × List (List String))
  | st, [] => .ok st
  | st, c :: cs =>
    match groupStep g st c with
    | .error u => .error u
    | .ok st2 => groupChildren g st2 cs

/-- One parent step of `groupBlocks` (source lines 14-32): walk the parent's
`content` (if any) and reset the type tracker afterwards; the group list and
the open-group index persist across parents. -/
def groupParent (g : Graph) (st : Option String × List (List String))
    (p : String × Block) : Except Unit (Option String × List (List String)) :=
  match p.2.content with
  | some ids =>
    match groupChildren g st ids with
    | .error u => .error u
    | .ok r => .ok (none, r.2)
  | none => Except.ok (none, st.2)

/-- The outer `Object.keys(blockMap).forEach`: every key in insertion order. -/
def groupParents (g : Graph) : (Option String × List (List String)) →
    List (String × Block) → Except Unit (Option String × List (List String))
  | st, [] => .ok st
  | st, p :: ps =>
    match groupParent g st p with
    | .error u => .error u
    | .ok st2 => groupParents g st2 ps

/-- Embedding of `groupBlocks` (source lines 8-35): fold over the map's keys
in insertion order; `Except.error` models the `groups[-1].push` fault. -/
def groupBlocks (g : Graph) : Except Unit (List (List String)) :=
  (groupParents g (none, []) g).map (fun r => r.2)

/-- Reference chunker for the sibling grouper: given the type tracker and the
currently open group, split the remaining children into groups, starting a new
group exactly when a child's type resolves and differs from the tracker; a
child with no resolved type is appended to the open group and leaves the
tracker unchanged.  Returns the final tracker and the produced groups. -/
def chunksFrom (g : Graph) : Option String → List String → List String →
    Option String × List (List String)
  | t, cur, [] => (t, [cur])
  | t, cur, c :: cs =>
    match lookupType g c with
    | some bt =>
      if (some bt : Option String) ≠ t then
        let r := chunksFrom g (some bt) [c] cs
        (r.1, cur :: r.2)
      else chunksFrom g t (cur ++ [c]) cs
    | none => chunksFrom g t (cur ++ [c]) cs

/-- Child-identifier reference edges of the graph. -/
def childIds (g : Graph) (i : String) : List String :=
  ((lookup g i).bind (fun v => v.content)).getD []

/-- `Edge g a b`: block `a` lists `b` among its child identifiers. -/
def Edge (g : Graph) (a b : String) : Prop := b ∈ childIds g a

/-- Reachability along child-identifier references. -/
def Reach (g : Graph) : String → String → Prop := Relation.ReflTransGen (Edge g)

/-- No cycle among child-identifier references: no edge can be closed back by
a reference path. -/
def Acyclic (g : Graph) : Prop := ∀ a b, Edge g a b → ¬ Reach g b a

/-- Rule set recording, for every kind, the identifiers at which builders
fire: each output node is its identifier consed onto its children's records. -/
def recordRules : Rules (List String) :=
  fun _ => some (fun i _ kids => i :: (kids.getD []).flatten)

/-! Concrete blocks and graphs used to instantiate the theorems. -/

/-- An empty `properties` bag. -/
def noProps : Properties := ⟨none, none, none, none, none, none⟩

/-- An empty `format` bag. -/
def noFormat : Format :=
  ⟨none, none, none, none, none, none, none, none, none, none, none, none⟩

/-- A `properties` bag holding a one-span title. -/
def titleProps (s : String) : Properties := { noProps with title := some [(s, [])] }

/-- A childless `text` block. -/
def wText : Block := ⟨"text", titleProps "Hello", noFormat, none, none, none, []⟩

/-- A `page` block with an icon, a title and a child list. -/
def wPage : Block :=
  ⟨"page", titleProps "My page", { noFormat with page_icon := some "icon1" },
    some ["k1", "k2"], none, none, []⟩

/-- Graph holding only `wPage`. -/
def wPageGraph : Graph := [("p1", wPage)]

/-- A childless `sub_header` block. -/
def wHeader : Block := ⟨"sub_header", titleProps "Head", noFormat, none, none, none, []⟩

/-- Graph holding only `wHeader`. -/
def wHeaderGraph : Graph := [("h1", wHeader)]

/-- A `bookmark` block with a link and a two-span title. -/
def wBookmark : Block :=
  ⟨"bookmark",
    { noProps with title := some [("Ti", []), ("tle", [])],
                   link := some [("http://x", [])] },
    { noFormat with bookmark_icon := some "fav" }, none, none, none, []⟩

/-- Graph holding only `wBookmark`. -/
def wBookmarkGraph : Graph := [("bm", wBookmark)]

/-- A `toggle` block listing one present and one absent child. -/
def wToggle : Block := ⟨"toggle", titleProps "Tog", noFormat, some ["c1", "missing"], none, none, []⟩

/-- Graph for the dispatch theorem: a toggle with one present child. -/
def wToggleGraph : Graph := [("tg", wToggle), ("c1", wText)]

/-- First half of the two-block cycle: a toggle listing `b` as child. -/
def cycA : Block := ⟨"toggle", noProps, noFormat, some ["b"], none, none, []⟩

/-- Second half of the two-block cycle: a toggle listing `a` as child. -/
def cycB : Block := ⟨"toggle", noProps, noFormat, some ["a"], none, none, []⟩

/-- The cyclic graph: `a` lists `b` as child and `b` lists `a`. -/
def cycGraph : Graph := [("a", cycA), ("b", cycB)]

/-- Acyclic two-block graph: a root page with one text child. -/
def wfRoot : Block := ⟨"page", noProps, noFormat, some ["a1"], none, none, []⟩

/-- The text leaf of `wfGraph`. -/
def wfLeaf : Block := ⟨"text", titleProps "Hi", noFormat, none, none, none, []⟩

/-- The acyclic witness graph. -/
def wfGraph : Graph := [("r0", wfRoot), ("a1", wfLeaf)]

/-- A `table_of_contents` block contained in page `pg`. -/
def wTocBlock : Block := ⟨"table_of_contents", noProps, noFormat, none, some "pg", none, []⟩

/-- The page containing `wTocBlock`: children are a header, a text block, an
absent identifier and a sub-sub-header. -/
def wTocPage : Block :=
  ⟨"page", titleProps "Page", noFormat, some ["h1", "tx", "gone", "h2"], none, none, []⟩

/-- A `header` child of the toc page. -/
def wTocH1 : Block := ⟨"header", titleProps "One", noFormat, none, some "pg", none, []⟩

/-- A `sub_sub_header` child of the toc page. -/
def wTocH2 : Block := ⟨"sub_sub_header", titleProps "Two", noFormat, none, some "pg", none, []⟩

/-- The toc witness graph. -/
def wTocGraph : Graph :=
  [("pg", wTocPage), ("toc", wTocBlock), ("h1", wTocH1), ("tx", wText), ("h2", wTocH2)]

/-- A childless `divider` block. -/
def wDivider : Block := ⟨"divider", noProps, noFormat, none, none, none, []⟩

/-- A block of the given type listing the given children. -/
def withKids (t : String) (kids : List String) : Block :=
  ⟨t, noProps, noFormat, some kids, none, none, []⟩

/-- Grouping graph: one parent with children of types text, text, divider,
text. -/
def gMix : Graph :=
  [("p", withKids "page" ["t1", "t2", "dv", "t3"]),
   ("t1", wText), ("t2", wText), ("dv", wDivider), ("t3", wText)]

/-- Grouping graph with a mid-run absent child: the parent lists `a`, the
absent `x`, then `b`, with `a` and `b` both of type text. -/
def gSkip : Graph := [("p", withKids "page" ["a", "x", "b"]), ("a", wText), ("b", wText)]

/-! The structural step lemma: one unfolding of the transformer equals the
compositional view.  Proved by exhausting the switch branches. -/

theorem transform_step {T : Type} (g : Graph) (rules : Rules T) (n : Nat)
    (blockId : String) (top : Bool) :
    transformGo g rules (n + 1) blockId top = stepView g rules n blockId top := by
  cases hl : lookup g blockId with
  | none => simp only [transformGo, stepView, hl]
  | some v =>
    simp only [transformGo, stepView, hl]
    rcases eq_or_ne v.type "text" with h1 | h1
    · simp [kindOf, contentOf, childrenOf, headerLvl, h1]
    rcases eq_or_ne v.type "toggle" with h2 | h2
    · simp [kindOf, contentOf, childrenOf, headerLvl, h2]
    rcases eq_or_ne v.type "page" with h3 | h3
    · cases top <;> simp [kindOf, contentOf, childrenOf, headerLvl, h3]
    rcases eq_or_ne v.type "bulleted_list" with h4 | h4
    · simp [kindOf, contentOf, childrenOf, headerLvl, h4]
    rcases eq_or_ne v.type "numbered_list" with h5 | h5
    · simp [kindOf, contentOf, childrenOf, headerLvl, h5]
    rcases eq_or_ne v.type "header" with h6 | h6
    · simp [kindOf, contentOf, childrenOf, headerLvl, h6]
    rcases eq_or_ne v.type "sub_header" with h7 | h7
    · simp [kindOf, contentOf, childrenOf, headerLvl, h7]
    rcases eq_or_ne v.type "sub_sub_header" with h8 | h8
    · simp [kindOf, contentOf, childrenOf, headerLvl, h8]
    rcases eq_or_ne v.type "to_do" with h9 | h9
    · simp [kindOf, contentOf, childrenOf, headerLvl, h9]
    rcases eq_or_ne v.type "table_of_contents" with h10 | h10
    · simp [kindOf, contentOf, childrenOf, headerLvl, h10]
    rcases eq_or_ne v.type "divider" with h11 | h11
    · simp [kindOf, contentOf, childrenOf, headerLvl, h11]
    rcases eq_or_ne v.type "column_list" with h12 | h12
    · simp [kindOf, contentOf, childrenOf, headerLvl, h12]
    rcases eq_or_ne v.type "column" with h13 | h13
    · simp [kindOf, contentOf, childrenOf, headerLvl, h13]
    rcases eq_or_ne v.type "quote" with h14 | h14
    · simp [kindOf, contentOf, childrenOf, headerLvl, h14]
    rcases eq_or_ne v.type "equation" with h15 | h15
    · simp [kindOf, contentOf, childrenOf, headerLvl, h15]
    rcases eq_or_ne v.type "code" with h16 | h16
    · simp [kindOf, contentOf, childrenOf, headerLvl, h16]
    rcases eq_or_ne v.type "image" with h17 | h17
    · simp [kindOf, contentOf, childrenOf, headerLvl, h17]
    rcases eq_or_ne v.type "video" with h18 | h18
    · simp [kindOf, contentOf, childrenOf, headerLvl, h18]
    rcases eq_or_ne v.type "callout" with h19 | h19
    · simp [kindOf, contentOf, childrenOf, headerLvl, h19]
    rcases eq_or_ne v.type "bookmark" with h20 | h20
    · simp [kindOf, contentOf, childrenOf, headerLvl, h20]
    rcases eq_or_ne v.type "collection_view" with h21 | h21
    · simp [kindOf, contentOf, childrenOf, headerLvl, h21]
    simp [kindOf, contentOf, childrenOf, headerLvl, h1, h2, h3, h4, h5, h6, h7, h8, h9, h10, h11, h12, h13, h14, h15, h16, h17, h18, h19, h20, h21]

/-- Auxiliary: the source writes the toc scan as a map producing entry-or-null
followed by `.filter(Boolean)`; that equals a single `filterMap`. -/
theorem reduceOption_map_eq {A B : Type} (f : A -> Option B) (l : List A) :
    (l.map f).reduceOption = l.filterMap f := by
  simp [List.reduceOption, List.filterMap_map]

/-- C1: a `page` block transformed with `isTopLevel = false` resolves to kind
`pageLink`, its content is the first title span and the format's page icon,
and the builder receives no children, whatever the block's own child list was
(the fuel is arbitrary: no recursion happens). -/
theorem pageLink_resolution {T : Type} (g : Graph) (rules : Rules T) (n : Nat)
    (blockId : String) (v : Block)
    (hl : lookup g blockId = some v) (ht : v.type = "page") :
    transformBlockMap g blockId rules false (n + 1) =
      .val ((rules "pageLink").map (fun r =>
        r blockId (.pageLinkC (firstText v.properties.title) v.format.page_icon) none)) := by
  rw [transformBlockMap, transform_step]
  simp [stepView, hl, kindOf, contentOf, childrenOf, assemble, ht]

/-- Witness for C1 on `wPageGraph`. -/
theorem pageLink_resolution_witness :
    lookup wPageGraph "p1" = some wPage ∧ wPage.type = "page" ∧
    transformBlockMap wPageGraph "p1" recordRules false 1 = .val (some ["p1"]) :=
  ⟨by decide, by decide,
    (pageLink_resolution wPageGraph recordRules 0 "p1" wPage (by decide) (by decide)).trans
      (by decide)⟩

/-- C6: a `header`, `sub_header` or `sub_sub_header` block resolves to kind
`header`, with content the flattened title and level 1, 2 or 3 respectively,
and no children. -/
theorem header_resolution {T : Type} (g : Graph) (rules : Rules T) (n : Nat)
    (blockId : String) (top : Bool) (v : Block)
    (hl : lookup g blockId = some v)
    (ht : v.type = "header" ∨ v.type = "sub_header" ∨ v.type = "sub_sub_header") :
    transformBlockMap g blockId rules top (n + 1) =
      .val ((rules "header").map (fun r =>
        r blockId (.headerC (getTextContent v.properties.title)
          (if v.type = "header" then 1 else if v.type = "sub_header" then 2 else 3))
          none)) := by
  rw [transformBlockMap, transform_step]
  rcases ht with h | h | h <;>
    simp [stepView, hl, kindOf, contentOf, childrenOf, headerLvl, assemble, h]

/-- Witness for C6 on `wHeaderGraph`. -/
theorem header_resolution_witness :
    lookup wHeaderGraph "h1" = some wHeader ∧ wHeader.type = "sub_header" ∧
    transformBlockMap wHeaderGraph "h1" recordRules true 1 = .val (some ["h1"]) :=
  ⟨by decide, by decide,
    (header_resolution wHeaderGraph recordRules 0 "h1" true wHeader (by decide)
      (Or.inr (Or.inl (by decide)))).trans (by decide)⟩

/-- C8: an identifier absent from the graph transforms to `undefined`, for
any rule set, either top-level flag and any fuel. -/
theorem missing_root_undefined {T : Type} (g : Graph) (rules : Rules T)
    (blockId : String) (hl : lookup g blockId = none) :
    ∀ (n : Nat) (top : Bool), transformBlockMap g blockId rules top (n + 1) = .val none := by
  intro n top
  rw [transformBlockMap, transform_step]
  simp [stepView, hl]

/-- Witness for C8 on the empty graph and on a graph that lacks the queried
identifier. -/
theorem missing_root_undefined_witness :
    lookup wPageGraph "absent" = none ∧
    transformBlockMap wPageGraph "absent" recordRules true 5 = .val none :=
  ⟨by decide, missing_root_undefined wPageGraph recordRules "absent" (by decide) 4 true⟩

/-- C9: a `bookmark` block with a present link resolves with content whose
`title` and `desc` are the same concatenation of the title property's spans;
no children. -/
theorem bookmark_title_desc {T : Type} (g : Graph) (rules : Rules T) (n : Nat)
    (blockId : String) (top : Bool) (v : Block) (s : String)
    (hl : lookup g blockId = some v) (ht : v.type = "bookmark")
    (hlink : firstText v.properties.link = some s) :
    transformBlockMap g blockId rules top (n + 1) =
      .val ((rules "bookmark").map (fun r =>
        r blockId (.bookmarkC ⟨s,
          concatSpans (getTextContent v.properties.title),
          concatSpans (getTextContent v.properties.title),
          v.format.bookmark_icon, v.format.bookmark_cover, v.format.block_color⟩)
          none)) := by
  rw [transformBlockMap, transform_step]
  simp [stepView, hl, kindOf, contentOf, childrenOf, assemble, ht, hlink]

/-- Witness for C9 on `wBookmarkGraph`: both derived fields are `"Title"`. -/
theorem bookmark_title_desc_witness :
    lookup wBookmarkGraph "bm" = some wBookmark ∧ wBookmark.type = "bookmark" ∧
    firstText wBookmark.properties.link = some "http://x" ∧
    transformBlockMap wBookmarkGraph "bm" recordRules true 1 = .val (some ["bm"]) ∧
    concatSpans (getTextContent wBookmark.properties.title) = "Title" :=
  ⟨by decide, by decide, by decide,
    (bookmark_title_desc wBookmarkGraph recordRules 0 "bm" true wBookmark "http://x"
      (by decide) (by decide) (by decide)).trans (by decide), by decide⟩

/-- C2: a `table_of_contents` block resolves with content scanned from the
direct children of its top-level page ancestor, not from its own properties:
present header-family children yield `{id, level, text}` entries with level
1/2/3 and the flattened title, all other children (including absent ones) are
filtered out, order is preserved, and nothing is recursed into (children
passed to the builder are `none`). -/
theorem toc_content {T : Type} (g : Graph) (rules : Rules T) (n : Nat)
    (blockId : String) (top : Bool) (v : Block)
    (hl : lookup g blockId = some v) (ht : v.type = "table_of_contents") :
    transformBlockMap g blockId rules top (n + 1) =
      .val ((rules "table_of_contents").map (fun r =>
        r blockId (.tocC (((getTopLevelPageBlock g v).content.getD []).filterMap
          (fun cid =>
            match lookup g cid with
            | some bv =>
              if bv.type = "header" then some ⟨cid, 1, getTextContent bv.properties.title⟩
              else if bv.type = "sub_header" then
                some ⟨cid, 2, getTextContent bv.properties.title⟩
              else if bv.type = "sub_sub_header" then
                some ⟨cid, 3, getTextContent bv.properties.title⟩
              else none
            | none => none))) none)) := by
  rw [transformBlockMap, transform_step]
  simp only [stepView, hl, kindOf, contentOf, childrenOf, assemble, ht]
  rw [reduceOption_map_eq]
  simp [kindOf, childrenOf, assemble]
  rfl

/-- Witness for C2 on `wTocGraph`: the scan surfaces exactly the two
header-family children of page `pg`, in order. -/
theorem toc_content_witness :
    lookup wTocGraph "toc" = some wTocBlock ∧ wTocBlock.type = "table_of_contents" ∧
    transformBlockMap wTocGraph "toc" recordRules false 1 = .val (some ["toc"]) ∧
    (((getTopLevelPageBlock wTocGraph wTocBlock).content.getD []).map
      (tocEntryOf wTocGraph)).reduceOption =
      [⟨"h1", 1, some [⟨"One"⟩]⟩, ⟨"h2", 3, some [⟨"Two"⟩]⟩] :=
  ⟨by decide, by decide,
    (toc_content wTocGraph recordRules 0 "toc" false wTocBlock (by decide)
      (by decide)).trans (by decide), by decide⟩

/-- C3: for a present block the transformer's result is exactly the rule
registered for the resolved kind applied to the identifier, the extracted
content and the traversed children with `undefined` entries dropped in order;
and when no rule is registered the result is `undefined` even though the
children were computed. -/
theorem dispatch_rule {T : Type} (g : Graph) (rules : Rules T) (n : Nat)
    (blockId : String) (top : Bool) (v : Block) (cs : Option (List (Option T)))
    (hl : lookup g blockId = some v)
    (hc : childrenOf g rules n v top = .ok cs) :
    transformBlockMap g blockId rules top (n + 1) =
      .val ((rules (kindOf v top)).map (fun r =>
        r blockId (contentOf g blockId v top)
          (cs.map (fun l => l.filterMap (fun x => x))))) ∧
    (rules (kindOf v top) = none →
      transformBlockMap g blockId rules top (n + 1) = .val none) := by
  have h1 : transformBlockMap g blockId rules top (n + 1) =
      .val ((rules (kindOf v top)).map (fun r =>
        r blockId (contentOf g blockId v top)
          (cs.map (fun l => l.filterMap (fun x => x))))) := by
    rw [transformBlockMap, transform_step]
    simp [stepView, hl, assemble, hc]
  exact ⟨h1, fun hr => by rw [h1, hr]; rfl⟩

/-- Witness for C3 on `wToggleGraph`: the toggle's children are the transform
of `c1` and the dropped `undefined` of the absent `missing`. -/
theorem dispatch_rule_witness :
    lookup wToggleGraph "tg" = some wToggle ∧
    childrenOf wToggleGraph recordRules 1 wToggle true =
      .ok (some [some ["c1"], none]) ∧
    transformBlockMap wToggleGraph "tg" recordRules true 2 = .val (some ["tg", "c1"]) :=
  ⟨by decide, by decide,
    ((dispatch_rule wToggleGraph recordRules 1 "tg" true wToggle (some [some ["c1"], none])
      (by decide) (by decide)).1).trans (by decide)⟩

/-- C4: on the cyclic graph the transformer never completes, whatever the
fuel: the source has no cycle detection and recurses unboundedly, so no
`CyclicGraphError` (or any other result) is ever produced. -/
theorem cyclic_diverges (T : Type) (rules : Rules T) :
    ∀ (n : Nat) (top : Bool),
      transformBlockMap cycGraph "a" rules top n = .out ∧
      transformBlockMap cycGraph "b" rules top n = .out := by
  intro n
  induction n with
  | zero => intro top; exact ⟨rfl, rfl⟩
  | succ n ih =>
    intro top
    have ha : transformGo cycGraph rules n "a" false = .out := (ih false).1
    have hb : transformGo cycGraph rules n "b" false = .out := (ih false).2
    constructor
    · rw [transformBlockMap, transform_step]
      simp [stepView, show lookup cycGraph "a" = some cycA from rfl, childrenOf,
        cycA, assemble, collectRes, Except.map, hb]
    · rw [transformBlockMap, transform_step]
      simp [stepView, show lookup cycGraph "b" = some cycB from rfl, childrenOf,
        cycB, assemble, collectRes, Except.map, ha]


/-! Machinery for the acyclic-termination claim. -/

/-- An erroring child traversal contains an out-of-fuel element. -/
theorem collect_error {T : Type} :
    ∀ (rs : List (Res T)), collectRes rs = .error () → ∃ r ∈ rs, r = Res.out := by
  intro rs
  induction rs with
  | nil => intro h; simp [collectRes] at h
  | cons a t ih =>
    intro h
    cases a with
    | out => exact ⟨.out, by simp, rfl⟩
    | val x =>
      simp only [collectRes] at h
      cases hct : collectRes t with
      | error u =>
        cases u
        obtain ⟨r, hr, hro⟩ := ih hct
        exact ⟨r, List.mem_cons_of_mem _ hr, hro⟩
      | ok l => rw [hct] at h; simp [Except.map] at h

/-- Every element of a successful child traversal comes from one child. -/
theorem collect_ok_mem {T : Type} (f : String → Res T) :
    ∀ (ids : List String) (lst : List (Option T)),
      collectRes (ids.map f) = .ok lst → ∀ x ∈ lst, ∃ i ∈ ids, f i = .val x := by
  intro ids
  induction ids with
  | nil =>
    intro lst h x hx
    cases lst with
    | nil => simp at hx
    | cons b bt => simp [collectRes] at h
  | cons i is ih =>
    intro lst h x hx
    simp only [List.map_cons] at h
    cases hf : f i with
    | out => rw [hf] at h; simp [collectRes] at h
    | val y =>
      rw [hf] at h
      simp only [collectRes] at h
      cases hct : collectRes (is.map f) with
      | error u => rw [hct] at h; simp [Except.map] at h
      | ok lt =>
        rw [hct] at h
        simp only [Except.map, Except.ok.injEq] at h
        rw [← h] at hx
        rcases List.mem_cons.1 hx with hxy | hx2
        · exact ⟨i, List.mem_cons_self i is, hxy ▸ hf⟩
        · obtain ⟨j, hj, hjv⟩ := ih lt hct x hx2
          exact ⟨j, List.mem_cons_of_mem _ hj, hjv⟩

/-- An erroring `childrenOf` means the block has a content list whose
traversal errored. -/
theorem childrenOf_out {T : Type} (g : Graph) (rules : Rules T) (n : Nat) (v : Block)
    (top : Bool) (h : childrenOf g rules n v top = .error ()) :
    ∃ ids, v.content = some ids ∧
      collectRes (ids.map (fun i => transformGo g rules n i false)) = .error () := by
  unfold childrenOf at h
  split_ifs at h with hcond
  · cases hc : v.content with
    | none => rw [hc] at h; simp at h
    | some ids =>
      rw [hc] at h
      simp at h
      cases hcc : collectRes (ids.map (fun i => transformGo g rules n i false)) with
      | error u => cases u; exact ⟨ids, rfl, hcc⟩
      | ok l => rw [hcc] at h; simp [Except.map] at h

/-- An out-of-fuel run with positive fuel can only come from the traversal of
a present block's content list running out of fuel on some child. -/
theorem go_out_shape {T : Type} (g : Graph) (rules : Rules T) (n : Nat)
    (blockId : String) (top : Bool)
    (h : transformGo g rules (n + 1) blockId top = .out) :
    ∃ v ids, lookup g blockId = some v ∧ v.content = some ids ∧
      collectRes (ids.map (fun i => transformGo g rules n i false)) = .error () := by
  rw [transform_step] at h
  unfold stepView at h
  cases hl : lookup g blockId with
  | none => rw [hl] at h; simp at h
  | some v =>
    rw [hl] at h
    simp only [assemble] at h
    cases hce : childrenOf g rules n v top with
    | error u =>
      cases u
      obtain ⟨ids, hc, hcc⟩ := childrenOf_out g rules n v top hce
      exact ⟨v, ids, rfl, hc, hcc⟩
    | ok cs => rw [hce] at h; simp at h

/-- A successful lookup means the identifier is among the map's keys. -/
theorem lookup_mem_keys {g : Graph} {i : String} {v : Block}
    (h : lookup g i = some v) : i ∈ gkeys g := by
  unfold lookup at h
  obtain ⟨p, hp, _⟩ := Option.map_eq_some'.1 h
  have hm := List.mem_of_find?_eq_some hp
  have hb : p.1 = i := by simpa using List.find?_some hp
  unfold gkeys
  exact hb ▸ List.mem_map_of_mem (fun q => q.1) hm

/-- A duplicate-free list included in another is no longer than it. -/
theorem nodup_length_le {l1 l2 : List String} (h1 : l1.Nodup) (hs : l1 ⊆ l2) :
    l1.length ≤ l2.length :=
  (List.subperm_of_subset h1 hs).length_le

/-- Termination on acyclic graphs: with fuel exceeding the number of keys the
transformer never runs out.  `seen` carries the identifiers already on the
recursion path, each of which properly reaches the current block. -/
theorem go_no_out {T : Type} (g : Graph) (hac : Acyclic g) (rules : Rules T) :
    ∀ (n : Nat) (blockId : String) (top : Bool) (seen : List String),
      seen.Nodup → (∀ s ∈ seen, s ∈ gkeys g) →
      (∀ s ∈ seen, ∃ c, Edge g s c ∧ Reach g c blockId) →
      (gkeys g).length + 1 ≤ n + seen.length →
      transformGo g rules n blockId top ≠ .out := by
  intro n
  induction n with
  | zero =>
    intro blockId top seen hnd hsub hreach hfuel
    have hle : seen.length ≤ (gkeys g).length := nodup_length_le hnd hsub
    exact absurd hfuel (by omega)
  | succ n ih =>
    intro blockId top seen hnd hsub hreach hfuel hout
    obtain ⟨v, ids, hl, hcont, herr⟩ := go_out_shape g rules n blockId top hout
    obtain ⟨r, hrmem, hrout⟩ := collect_error _ herr
    obtain ⟨i, hiids, hieq⟩ := List.mem_map.1 hrmem
    rw [← hieq] at hrout
    have hedge : Edge g blockId i := by
      unfold Edge childIds
      rw [hl]
      simp [hcont, hiids]
    have hnotseen : blockId ∉ seen := by
      intro hmem
      obtain ⟨c, hec, hrc⟩ := hreach blockId hmem
      exact hac blockId c hec hrc
    have hkey : blockId ∈ gkeys g := lookup_mem_keys hl
    refine ih i false (blockId :: seen) ?_ ?_ ?_ ?_ hrout
    · exact List.nodup_cons.2 ⟨hnotseen, hnd⟩
    · intro s hs
      rcases List.mem_cons.1 hs with hse | hs2
      · exact hse ▸ hkey
      · exact hsub s hs2
    · intro s hs
      rcases List.mem_cons.1 hs with hse | hs2
      · exact hse ▸ ⟨i, hedge, Relation.ReflTransGen.refl⟩
      · obtain ⟨c, hec, hrc⟩ := hreach s hs2
        exact ⟨c, hec, hrc.tail hedge⟩
    · simp only [List.length_cons]
      omega

/-- Every identifier recorded in a completed run of the transformer under the
recording rules is reachable from the root along child references. -/
theorem go_reach (g : Graph) :
    ∀ (n : Nat) (blockId : String) (top : Bool) (l : List String),
      transformGo g recordRules n blockId top = .val (some l) →
      ∀ j ∈ l, Reach g blockId j := by
  intro n
  induction n with
  | zero => intro bid top l h; exact absurd h (by simp [transformGo])
  | succ n ih =>
    intro bid top l h j hj
    rw [transform_step] at h
    unfold stepView at h
    cases hl : lookup g bid with
    | none => rw [hl] at h; simp at h
    | some v =>
      rw [hl] at h
      simp only [assemble] at h
      cases hce : childrenOf g recordRules n v top with
      | error u => rw [hce] at h; simp at h
      | ok cs =>
        rw [hce] at h
        cases cs with
        | none =>
          simp [recordRules] at h
          subst h
          have hje : j = bid := by simpa using hj
          exact hje ▸ Relation.ReflTransGen.refl
        | some lst =>
          simp [recordRules] at h
          subst h
          rcases List.mem_cons.1 hj with hje | hj2
          · exact hje ▸ Relation.ReflTransGen.refl
          · obtain ⟨lj, hlj, hjlj⟩ := List.mem_flatten.1 hj2
            obtain ⟨o, ho, hoe⟩ := List.mem_filterMap.1 hlj
            have hoe2 : o = some lj := hoe
            subst hoe2
            unfold childrenOf at hce
            split_ifs at hce with hcond
            · cases hvc : v.content with
              | none => rw [hvc] at hce; simp at hce
              | some ids =>
                rw [hvc] at hce
                simp at hce
                cases hcc : collectRes (ids.map (fun i => transformGo g recordRules n i false)) with
                | error u => rw [hcc] at hce; simp [Except.map] at hce
                | ok lst2 =>
                  rw [hcc] at hce
                  simp only [Except.map, Except.ok.injEq, Option.some.injEq] at hce
                  rw [hce] at hcc
                  obtain ⟨i, hi, hie⟩ := collect_ok_mem _ ids lst hcc (some lj) ho
                  have hreach2 : Reach g i j := ih i false lj hie j hjlj
                  have hedge : Edge g bid i := by
                    unfold Edge childIds
                    rw [hl]
                    simp [hvc, hi]
                  exact Relation.ReflTransGen.head hedge hreach2
            · simp at hce

/-- A rank strictly decreasing along edges rules out reference cycles. -/
theorem acyclic_of_rank (g : Graph) (f : String → Nat)
    (h : ∀ a b, Edge g a b → f b < f a) : Acyclic g := by
  have key : ∀ x y, Reach g x y → f y ≤ f x := by
    intro x y hxy
    induction hxy with
    | refl => exact le_refl _
    | tail hxb hbc ih => exact le_trans (le_of_lt (h _ _ hbc)) ih
  intro a b hab hba
  have h1 := key b a hba
  have h2 := h a b hab
  omega

/-- The child lists of the two-block acyclic graph. -/
theorem wf_childIds (a : String) :
    childIds wfGraph a = if a = "r0" then ["a1"] else [] := by
  by_cases h1 : a = "r0"
  · subst h1; decide
  · rw [if_neg h1]
    by_cases h2 : a = "a1"
    · subst h2; decide
    · have hfind : List.find? (fun p => p.1 == a) wfGraph = none := by
        rw [List.find?_eq_none]
        intro x hx
        simp only [wfGraph, List.mem_cons, List.not_mem_nil, or_false] at hx
        rcases hx with rfl | rfl
        · simp only [beq_iff_eq]
          exact fun he => h1 he.symm
        · simp only [beq_iff_eq]
          exact fun he => h2 he.symm
      unfold childIds lookup
      rw [hfind]
      rfl

/-- The two-block graph is acyclic. -/
theorem wf_acyclic : Acyclic wfGraph := by
  apply acyclic_of_rank wfGraph (fun s => if s = "r0" then 1 else 0)
  intro a b hab
  unfold Edge at hab
  rw [wf_childIds] at hab
  by_cases h1 : a = "r0"
  · rw [if_pos h1] at hab
    have hb : b = "a1" := by simpa using hab
    subst hb; subst h1; decide
  · rw [if_neg h1] at hab; simp at hab

/-- C5: on a graph with no cycle among child-identifier references the
transformer, given fuel one more than the number of keys, completes (whatever
the rule set), and - under the identifier-recording rules - every identifier
occurring in the output corresponds to a block reachable from the root. -/
theorem acyclic_terminates_reachable {T : Type} (g : Graph) (root : String)
    (rules : Rules T) (top : Bool) (hac : Acyclic g) :
    transformBlockMap g root rules top ((gkeys g).length + 1) ≠ .out ∧
    ∀ (l : List String) (j : String),
      transformBlockMap g root recordRules true ((gkeys g).length + 1) = .val (some l) →
      j ∈ l → Reach g root j := by
  constructor
  · simp only [transformBlockMap]
    exact go_no_out g hac rules ((gkeys g).length + 1) root top []
      (by simp) (by simp) (by simp) (by simp)
  · intro l j h hj
    simp only [transformBlockMap] at h
    exact go_reach g ((gkeys g).length + 1) root true l h j hj

/-- Witness for C5 on the concrete acyclic graph `wfGraph`. -/
theorem acyclic_terminates_reachable_witness :
    Acyclic wfGraph ∧
    transformBlockMap wfGraph "r0" recordRules true 3 ≠ .out ∧
    Reach wfGraph "r0" "a1" := by
  have h := acyclic_terminates_reachable (T := List String) wfGraph "r0" recordRules
    true wf_acyclic
  exact ⟨wf_acyclic, h.1, h.2 ["r0", "a1"] "a1" (by decide) (by decide)⟩


/-! Machinery for the sibling-grouper claims. -/

/-- Pushing onto a group list with an open last group appends to it. -/
theorem pushLast_append :
    ∀ (gs : List (List String)) (cur : List String) (x : String),
      pushLast (gs ++ [cur]) x = some (gs ++ [cur ++ [x]]) := by
  intro gs
  induction gs with
  | nil => intro cur x; rfl
  | cons a gt ih =>
    intro cur x
    cases gt with
    | nil => simp [pushLast]
    | cons b t =>
      have ihx := ih cur x
      simp only [List.cons_append] at ihx
      simp [pushLast, ihx]

/-- Pushing with two trailing groups appends to the later one. -/
theorem pushLast_append2 (gs : List (List String)) (cur l2 : List String) (x : String) :
    pushLast (gs ++ [cur, l2]) x = some (gs ++ [cur, l2 ++ [x]]) := by
  have h := pushLast_append (gs ++ [cur]) l2 x
  simpa using h

/-- A child with no resolved type is appended to the open group and leaves
the tracker unchanged. -/
theorem groupStep_unresolved (g : Graph) (c : String) (hbt : lookupType g c = none)
    (t : Option String) (gs : List (List String)) (cur : List String) :
    groupStep g (t, gs ++ [cur]) c = Except.ok (t, gs ++ [cur ++ [c]]) := by
  simp [groupStep, groupPush, hbt, pushLast_append]

/-- A child whose resolved type equals the tracker joins the open group. -/
theorem groupStep_same (g : Graph) (c : String) (bt : String)
    (hbt : lookupType g c = some bt) (t : Option String)
    (heq : (some bt : Option String) = t) (gs : List (List String)) (cur : List String) :
    groupStep g (t, gs ++ [cur]) c = Except.ok (t, gs ++ [cur ++ [c]]) := by
  simp [groupStep, groupPush, hbt, heq, pushLast_append]

/-- A child whose resolved type differs from the tracker opens a new group
holding just that child and updates the tracker. -/
theorem groupStep_diff (g : Graph) (c : String) (bt : String)
    (hbt : lookupType g c = some bt) (t : Option String)
    (heq : (some bt : Option String) ≠ t) (gs : List (List String)) (cur : List String) :
    groupStep g (t, gs ++ [cur]) c = Except.ok (some bt, gs ++ [cur, [c]]) := by
  simp [groupStep, groupPush, hbt, heq, pushLast_append, pushLast_append2]

/-- Walking one parent's children from an open group matches the reference
chunker: a resolved type differing from the tracker opens a new group, any
other child is appended to the open group. -/
theorem children_chunks (g : Graph) :
    ∀ (cs : List String) (t : Option String) (cur : List String)
      (gs : List (List String)),
      groupChildren g (t, gs ++ [cur]) cs =
        Except.ok ((chunksFrom g t cur cs).1, gs ++ (chunksFrom g t cur cs).2) := by
  intro cs
  induction cs with
  | nil => intro t cur gs; simp [groupChildren, chunksFrom]
  | cons c cs ih =>
    intro t cur gs
    cases hbt : lookupType g c with
    | none =>
      simp only [groupChildren, groupStep_unresolved g c hbt t gs cur, chunksFrom, hbt]
      exact ih t (cur ++ [c]) gs
    | some bt =>
      rcases eq_or_ne (some bt : Option String) t with heq | heq
      · simp only [groupChildren, groupStep_same g c bt hbt t heq gs cur, chunksFrom, hbt]
        rw [if_neg (by simp [heq])]
        exact ih t (cur ++ [c]) gs
      · simp only [groupChildren, groupStep_diff g c bt hbt t heq gs cur, chunksFrom, hbt]
        rw [if_pos heq]
        have ihx := ih (some bt) [c] (gs ++ [cur])
        simp only [List.append_assoc, List.singleton_append] at ihx
        exact ihx

/-- C7 counterexample: in `gSkip` the identifier `x` is absent from the graph
(its type cannot be resolved), yet it is not skipped: it is pushed into the
current run, which also keeps growing through it, giving the single group
`[a, x, b]` instead of the `[a], [b]`-style output the claim predicts. -/
theorem group_missing_not_skipped :
    lookup gSkip "x" = none ∧
    groupBlocks gSkip = Except.ok [["a", "x", "b"]] :=
  ⟨by decide, by decide⟩

/-- C7 (amended): walking one parent's children starts a new group exactly
when the child's type resolves and differs from the tracker; a child whose
type does not resolve is appended to the open group without updating the
tracker (the walk faults if no group is open).  On children of types
`[text, text, divider, text]` this yields the groups `[t1,t2]`, `[dv]`,
`[t3]`. -/
theorem group_boundary_amended :
    (∀ (g : Graph) (cs : List String) (t : Option String) (cur : List String)
        (gs : List (List String)),
      groupChildren g (t, gs ++ [cur]) cs =
        Except.ok ((chunksFrom g t cur cs).1, gs ++ (chunksFrom g t cur cs).2)) ∧
    groupBlocks gMix = Except.ok [["t1", "t2"], ["dv"], ["t3"]] :=
  ⟨fun g cs t cur gs => children_chunks g cs t cur gs, by decide⟩

/-- C10: the type tracker is reset after every parent (any successful parent
step leaves a `none` tracker), so from a fresh tracker the first child with a
resolved type always opens a new group, whatever the previous run's type
was. -/
theorem group_reset_per_parent :
    (∀ (g : Graph) (st : Option String × List (List String)) (p : String × Block)
        (r : Option String × List (List String)),
      groupParent g st p = Except.ok r → r.1 = none) ∧
    (∀ (g : Graph) (gs : List (List String)) (c : String) (bt : String),
      lookupType g c = some bt →
      groupStep g (none, gs) c = Except.ok (some bt, gs ++ [[c]])) := by
  constructor
  · intro g st p r h
    unfold groupParent at h
    cases hc : p.2.content with
    | none =>
      rw [hc] at h
      simp at h
      subst h
      rfl
    | some ids =>
      rw [hc] at h
      simp at h
      cases hg : groupChildren g st ids with
      | error u => rw [hg] at h; simp at h
      | ok st2 =>
        rw [hg] at h
        simp at h
        subst h
        rfl
  · intro g gs c bt hbt
    have hp := pushLast_append gs [] c
    simp only [List.nil_append] at hp
    simp [groupStep, groupPush, hbt, hp]

/-- Witness for C10: a parent with no children resets a stale tracker, and a
fresh tracker opens a new group for a resolved-type child even though the
previous group ended in the same type. -/
theorem group_reset_per_parent_witness :
    groupParent gSkip (some "text", [["z"]]) ("p", wDivider) = Except.ok (none, [["z"]]) ∧
    (((none : Option String), [["z"]]) : Option String × List (List String)).1 = none ∧
    lookupType gSkip "a" = some "text" ∧
    groupStep gSkip (none, [["z"]]) "a" = Except.ok (some "text", [["z"], ["a"]]) :=
  ⟨by decide,
   group_reset_per_parent.1 gSkip (some "text", [["z"]]) ("p", wDivider)
     ((none : Option String), [["z"]]) (by decide),
   by decide,
   by
     have h := group_reset_per_parent.2 gSkip [["z"]] "a" "text" (by decide)
     exact h⟩

end Notion
